import Mathlib

/-!
Verification of the tic-tac-toe core logic of the repository
(`src/tic_tac_toe_frontend/src/components/TicTacToe.tsx`).

The embedding follows the source: cells are `Option Player` (JS `"X" | "O" | null`),
the board is a list of 9 cells, `calculateWinner` scans the fixed list of 8
winning triples in source order, and `handleClick` is the move handler of the
`TicTacToe` component (a no-op when the game is over or the clicked cell is
not `null`; note that in JS an out-of-range index reads as `undefined`, which
is `!== null`, hence also a no-op).
-/

/-- The two marks, JS `"X"` and `"O"`. -/
inductive Player where
  | X : Player
  | O : Player
deriving DecidableEq, Repr

/-- A cell of the board: `null`, `"X"` or `"O"` (JS type `Player = "X" | "O" | null`). -/
abbrev Cell := Option Player

/-- Result record of `calculateWinner`: `{ winner: Player; line: number[] | null }`. -/
structure WinnerResult where
  winner : Option Player
  line : Option (List Nat)
deriving DecidableEq, Repr

/-- The fixed ordered list of winning triples from `calculateWinner`:
3 rows, 3 columns, 2 diagonals, in source order. -/
def linesList : List (Nat × Nat × Nat) :=
  [(0, 1, 2), (3, 4, 5), (6, 7, 8),
   (0, 3, 6), (1, 4, 7), (2, 5, 8),
   (0, 4, 8), (2, 4, 6)]

/-- The loop body of `calculateWinner`: scan the triples in order and return at the
first triple whose three cells hold the same non-null value
(JS `squares[a] && squares[a] === squares[b] && squares[a] === squares[c]`).
An out-of-range read yields `none` (JS `undefined`, which is falsy). -/
def findWin (squares : List Cell) : List (Nat × Nat × Nat) → WinnerResult
  | [] => { winner := none, line := none }
  | (a, b, c) :: rest =>
    let sa := squares.getD a none
    if sa ≠ none ∧ sa = squares.getD b none ∧ sa = squares.getD c none then
      { winner := sa, line := some [a, b, c] }
    else
      findWin squares rest

/-- `calculateWinner` from the source: the pure win detector. -/
def calculateWinner (squares : List Cell) : WinnerResult :=
  findWin squares linesList

/-- `isBoardFull` from the source: `board.every((c) => c !== null)`. -/
def isBoardFull (b : List Cell) : Bool :=
  b.all (fun c => c != none)

/-- `isDraw` from the source: `!winner && isBoardFull`. -/
def isDraw (b : List Cell) : Bool :=
  (calculateWinner b).winner == none && isBoardFull b

/-- `isGameOver` from the source: `Boolean(winner) || isDraw`. -/
def isGameOver (b : List Cell) : Bool :=
  (calculateWinner b).winner != none || isDraw b

/-- The component state: `board`, `xIsNext`, `hasStarted`. -/
structure GameState where
  board : List Cell
  xIsNext : Bool
  hasStarted : Bool
deriving DecidableEq, Repr

/-- The initial component state: `Array(9).fill(null)`, `xIsNext = true`,
`hasStarted = false`. -/
def initialState : GameState :=
  { board := List.replicate 9 none, xIsNext := true, hasStarted := false }

/-- `resetGame` from the source: restore the initial state unconditionally. -/
def resetGame (_s : GameState) : GameState :=
  initialState

/-- JS array indexing `board[index]` for a possibly-negative or out-of-range
integer index: `none` models JS `undefined`, `some c` a stored cell value. -/
def jsGet (b : List Cell) (i : Int) : Option Cell :=
  if i < 0 then none else b[i.toNat]?

/-- `handleClick` from the source:
`if (isGameOver || board[index] !== null) return;` then copy the board, write the
current mark at `index`, flip `xIsNext`, and set `hasStarted`. -/
def handleClick (s : GameState) (index : Int) : GameState :=
  if isGameOver s.board ∨ jsGet s.board index ≠ some none then s
  else
    { board := s.board.set index.toNat (some (if s.xIsNext then Player.X else Player.O)),
      xIsNext := !s.xIsNext,
      hasStarted := true }

/-- Apply a sequence of clicks in order. -/
def applyMoves (s : GameState) (moves : List Int) : GameState :=
  moves.foldl handleClick s

/-- The verdict of the spec's Win Evaluator. -/
inductive Verdict where
  | InProgress : Verdict
  | Win : Player → List Nat → Verdict
  | Draw : Verdict
deriving DecidableEq, Repr

/-- The session status (the three-way classification the component renders). -/
inductive SessionStatus where
  | InProgress : SessionStatus
  | Won : Player → List Nat → SessionStatus
  | Drawn : SessionStatus
deriving DecidableEq, Repr

/-- The Win Evaluator of the spec, as the code derives it: `calculateWinner`
gives win-with-line, else draw when the board is full, else in progress.
The component reads `line` through a non-null cast (`line as number[]`), which
`Option.getD` mirrors. -/
def evaluate (b : List Cell) : Verdict :=
  match calculateWinner b with
  | { winner := some p, line := l } => Verdict.Win p (l.getD [])
  | { winner := none, line := _ } =>
    if isBoardFull b then Verdict.Draw else Verdict.InProgress

/-- The derived status of a component state: winner announced, draw announced,
or still in progress (the code's `statusText` three-way branch). -/
def sessionStatus (s : GameState) : SessionStatus :=
  match calculateWinner s.board with
  | { winner := some p, line := l } => SessionStatus.Won p (l.getD [])
  | { winner := none, line := _ } =>
    if isBoardFull s.board then SessionStatus.Drawn else SessionStatus.InProgress

/-- Map an evaluator verdict to the corresponding session status. -/
def verdictToStatus : Verdict → SessionStatus
  | Verdict.InProgress => SessionStatus.InProgress
  | Verdict.Win p l => SessionStatus.Won p l
  | Verdict.Draw => SessionStatus.Drawn

/-- Modelled from the spec: a triple whose three indexed cells all hold the same
non-`Empty` value. -/
def tripleSameNonEmpty (b : List Cell) : Nat × Nat × Nat → Bool
  | (x, y, z) =>
    match b.getD x none with
    | none => false
    | some p => b.getD y none == some p && b.getD z none == some p

/-- Modelled from the spec: return `Win(value, triple)` for the first triple in
the fixed order whose three cells hold the same non-`Empty` value; otherwise
`Draw` when every cell is non-`Empty`, else `InProgress`. -/
def specEvaluate (b : List Cell) : Verdict :=
  match linesList.find? (tripleSameNonEmpty b) with
  | some (a, y, z) =>
    match b.getD a none with
    | some p => Verdict.Win p [a, y, z]
    | none => Verdict.InProgress
  | none => if b.all (fun c => !(c == none)) then Verdict.Draw else Verdict.InProgress

/-- Number of cells holding mark `p`. -/
def countMark (b : List Cell) (p : Player) : Nat :=
  b.count (some p)

/-- `b` holds a completed winning line for mark `p` among the 8 fixed triples. -/
def hasLineFor (b : List Cell) (p : Player) : Bool :=
  linesList.any (fun t =>
    b.getD t.1 none == some p && b.getD t.2.1 none == some p && b.getD t.2.2 none == some p)

/-- States reachable from the initial state through clicks and resets. -/
inductive Reachable : GameState → Prop where
  | init : Reachable initialState
  | move : ∀ s i, Reachable s → Reachable (handleClick s i)
  | reset : ∀ s, Reachable s → Reachable (resetGame s)

/-- A concrete board with `X` across the top row (reached by clicks
`0, 3, 1, 4, 2` from the initial state). -/
def demoBoard : List Cell :=
  [some Player.X, some Player.X, some Player.X,
   some Player.O, some Player.O, none, none, none, none]

/-- The concrete won state after clicks `0, 3, 1, 4, 2`. -/
def wonState : GameState :=
  applyMoves initialState [0, 3, 1, 4, 2]

/-! ### Structure of the win detector's result -/

/-- `findWin` either reports no winner and no line, or a winner together with a
triple from the scanned list whose three cells all hold the winner's mark. -/
theorem findWin_shape (b : List Cell) (L : List (Nat × Nat × Nat)) :
    findWin b L = { winner := none, line := none } ∨
    ∃ p x y z, (x, y, z) ∈ L ∧
      findWin b L = { winner := some p, line := some [x, y, z] } ∧
      b.getD x none = some p ∧ b.getD y none = some p ∧ b.getD z none = some p := by
  induction L with
  | nil => exact Or.inl rfl
  | cons hd rest ih =>
    obtain ⟨x, y, z⟩ := hd
    by_cases hc : b.getD x none ≠ none ∧ b.getD x none = b.getD y none ∧
        b.getD x none = b.getD z none
    · right
      cases hx : b.getD x none with
      | none => exact absurd hx hc.1
      | some p =>
        refine ⟨p, x, y, z, List.mem_cons_self _ _, ?_, hx, ?_, ?_⟩
        · simp only [findWin]
          rw [if_pos hc, hx]
        · rw [← hc.2.1, hx]
        · rw [← hc.2.2, hx]
    · have hrec : findWin b ((x, y, z) :: rest) = findWin b rest := by
        simp only [findWin]
        rw [if_neg hc]
      rcases ih with h | ⟨p, a, c, d, hm, he, h1, h2, h3⟩
      · exact Or.inl (hrec.trans h)
      · exact Or.inr ⟨p, a, c, d, List.mem_cons_of_mem _ hm, hrec.trans he, h1, h2, h3⟩

/-- The loop of `calculateWinner` is the first triple found by a `find?` over the
same list with the same-non-empty test. -/
theorem findWin_eq_find? (b : List Cell) (L : List (Nat × Nat × Nat)) :
    findWin b L =
      match L.find? (tripleSameNonEmpty b) with
      | some (x, y, z) => { winner := b.getD x none, line := some [x, y, z] }
      | none => { winner := none, line := none } := by
  induction L with
  | nil => rfl
  | cons hd rest ih =>
    obtain ⟨x, y, z⟩ := hd
    have hcond : (b.getD x none ≠ none ∧ b.getD x none = b.getD y none ∧
        b.getD x none = b.getD z none) ↔ tripleSameNonEmpty b (x, y, z) = true := by
      cases hx : b.getD x none with
      | none =>
        constructor
        · intro hcc
          exact absurd rfl hcc.1
        · intro hcc
          exfalso
          simp only [tripleSameNonEmpty] at hcc
          rw [hx] at hcc
          exact Bool.false_ne_true hcc
      | some p =>
        constructor
        · rintro ⟨-, h2, h3⟩
          simp only [tripleSameNonEmpty]
          rw [hx, ← h2, ← h3]
          simp
        · intro hcc
          simp only [tripleSameNonEmpty] at hcc
          rw [hx] at hcc
          rw [Bool.and_eq_true, beq_iff_eq, beq_iff_eq] at hcc
          exact ⟨Option.some_ne_none p, hcc.1.symm, hcc.2.symm⟩
    cases hc : tripleSameNonEmpty b (x, y, z) with
    | true =>
      simp only [findWin, List.find?_cons, hc]
      rw [if_pos (hcond.mpr hc)]
    | false =>
      have hc' : ¬(b.getD x none ≠ none ∧ b.getD x none = b.getD y none ∧
          b.getD x none = b.getD z none) := by
        intro hcc
        rw [hcond.mp hcc] at hc
        cases hc
      simp only [findWin, List.find?_cons, hc]
      rw [if_neg hc']
      exact ih

/-- The session status is the evaluator's verdict on the current board. -/
theorem sessionStatus_eq_verdict (s : GameState) :
    sessionStatus s = verdictToStatus (evaluate s.board) := by
  unfold sessionStatus evaluate
  cases hr : calculateWinner s.board with
  | mk w l =>
    cases w with
    | some p => rfl
    | none =>
      by_cases hb : isBoardFull s.board
      · simp only [hb, if_true]
        rfl
      · simp only [hb, if_false]
        rfl

/-- The status reads `InProgress` exactly when there is no winner and the board
is not full. -/
theorem sessionStatus_inProgress_iff (s : GameState) :
    sessionStatus s = SessionStatus.InProgress ↔
      (calculateWinner s.board).winner = none ∧ isBoardFull s.board = false := by
  unfold sessionStatus
  cases hr : calculateWinner s.board with
  | mk w l =>
    cases w with
    | some p => simp
    | none =>
      by_cases hb : isBoardFull s.board
      · simp [hb]
      · simp [hb]

/-- `isGameOver` is false in an in-progress state. -/
theorem isGameOver_eq_false_of_inProgress (s : GameState)
    (h : sessionStatus s = SessionStatus.InProgress) :
    isGameOver s.board = false := by
  rw [sessionStatus_inProgress_iff] at h
  unfold isGameOver isDraw
  rw [h.1, h.2]
  simp

/-- `isGameOver` is true in any non-`InProgress` (terminal) state. -/
theorem isGameOver_eq_true_of_terminal (s : GameState)
    (h : sessionStatus s ≠ SessionStatus.InProgress) :
    isGameOver s.board = true := by
  unfold isGameOver isDraw
  unfold sessionStatus at h
  cases hr : calculateWinner s.board with
  | mk w l =>
    cases w with
    | some p => simp [hr]
    | none =>
      rw [hr] at h
      cases hb : isBoardFull s.board with
      | true => simp [hr, hb]
      | false =>
        rw [hb] at h
        simp at h

/-! ### No-op behaviour of the click handler -/

/-- A click is ignored once the game is over. -/
theorem handleClick_of_gameOver (s : GameState) (i : Int)
    (h : isGameOver s.board = true) : handleClick s i = s := by
  unfold handleClick
  rw [if_pos (Or.inl h)]

/-- A click on a negative index reads `undefined`, hence is ignored. -/
theorem jsGet_neg (b : List Cell) (i : Int) (h : i < 0) : jsGet b i = none := by
  unfold jsGet
  rw [if_pos h]

/-- A click past the end of the board reads `undefined`, hence is ignored. -/
theorem jsGet_ge (b : List Cell) (i : Int) (h : (b.length : Int) ≤ i) :
    jsGet b i = none := by
  unfold jsGet
  have h0 : ¬i < 0 := by omega
  rw [if_neg h0]
  exact List.getElem?_eq_none (by omega)

/-- An in-range read through JS indexing is the stored cell. -/
theorem jsGet_lt (b : List Cell) (i : Int) (h0 : 0 ≤ i) (h : i.toNat < b.length) :
    jsGet b i = some (b.getD i.toNat none) := by
  unfold jsGet
  rw [if_neg (by omega), List.getD_eq_getElem?_getD, List.getElem?_eq_getElem h]
  rfl

/-! ### Counting marks under a move -/

/-- Writing mark `p` into an empty cell adds one `p` and leaves the other
mark's count unchanged. -/
theorem count_set_none (b : List Cell) :
    ∀ i : Nat, b[i]? = some none → ∀ p : Player,
      (b.set i (some p)).count (some p) = b.count (some p) + 1 ∧
      ∀ q : Player, q ≠ p → (b.set i (some p)).count (some q) = b.count (some q) := by
  induction b with
  | nil =>
    intro i hb
    simp at hb
  | cons c t ih =>
    intro i hb p
    cases i with
    | zero =>
      have hc : c = none := by simpa using hb
      subst hc
      constructor
      · rw [List.set_cons_zero, List.count_cons, List.count_cons]
        simp
      · intro q hq
        rw [List.set_cons_zero, List.count_cons, List.count_cons]
        simp [Ne.symm hq]
    | succ n =>
      have hb' : t[n]? = some none := by simpa using hb
      obtain ⟨h1, h2⟩ := ih n hb' p
      constructor
      · rw [List.set_cons_succ, List.count_cons, List.count_cons, h1]
        ring
      · intro q hq
        rw [List.set_cons_succ, List.count_cons, List.count_cons, h2 q hq]

/-! ### Winning lines and the detector -/

/-- If some scanned triple is fully held by mark `p`, the detector reports a
winner. -/
theorem findWin_winner_of_any (b : List Cell) (p : Player)
    (L : List (Nat × Nat × Nat))
    (h : L.any (fun t =>
      b.getD t.1 none == some p && b.getD t.2.1 none == some p &&
        b.getD t.2.2 none == some p) = true) :
    (findWin b L).winner ≠ none := by
  induction L with
  | nil => simp at h
  | cons hd rest ih =>
    obtain ⟨x, y, z⟩ := hd
    by_cases hc : b.getD x none ≠ none ∧ b.getD x none = b.getD y none ∧
        b.getD x none = b.getD z none
    · simp only [findWin]
      rw [if_pos hc]
      exact hc.1
    · have hhd : ¬(b.getD x none == some p && b.getD y none == some p &&
          b.getD z none == some p) = true := by
        intro hh
        rw [Bool.and_eq_true, Bool.and_eq_true, beq_iff_eq, beq_iff_eq, beq_iff_eq] at hh
        exact hc ⟨by rw [hh.1.1]; exact Option.some_ne_none p,
          hh.1.1.trans hh.1.2.symm, hh.1.1.trans hh.2.symm⟩
      rw [List.any_cons] at h
      have htail : rest.any (fun t =>
          b.getD t.1 none == some p && b.getD t.2.1 none == some p &&
            b.getD t.2.2 none == some p) = true := by
        rw [Bool.or_eq_true] at h
        rcases h with hh | hh
        · exact absurd hh hhd
        · exact hh
      simp only [findWin]
      rw [if_neg hc]
      exact ih htail

/-- When the detector reports no winner, no mark holds a completed line. -/
theorem hasLineFor_eq_false_of_winner_none (b : List Cell)
    (h : (calculateWinner b).winner = none) (p : Player) :
    hasLineFor b p = false := by
  by_contra hne
  rw [Bool.not_eq_false] at hne
  unfold hasLineFor at hne
  exact findWin_winner_of_any b p linesList hne h

/-- A completed line for mark `q` on a board where mark `p ≠ q` was just written
into cell `i` was already completed before the write. -/
theorem hasLineFor_set_other (b : List Cell) (i : Nat) (hi : i < b.length)
    (p q : Player) (hq : q ≠ p)
    (h : hasLineFor (b.set i (some p)) q = true) : hasLineFor b q = true := by
  unfold hasLineFor at h ⊢
  rw [List.any_eq_true] at h ⊢
  obtain ⟨t, ht, hcells⟩ := h
  refine ⟨t, ht, ?_⟩
  obtain ⟨x, y, z⟩ := t
  rw [Bool.and_eq_true, Bool.and_eq_true, beq_iff_eq, beq_iff_eq, beq_iff_eq] at hcells ⊢
  have key : ∀ j, (b.set i (some p)).getD j none = some q → b.getD j none = some q := by
    intro j hj
    rcases eq_or_ne i j with rfl | hne
    · rw [List.getD_eq_getElem?_getD, List.getElem?_set_self hi] at hj
      simp at hj
      exact absurd hj.symm hq
    · rw [List.getD_eq_getElem?_getD, List.getElem?_set_ne hne,
        ← List.getD_eq_getElem?_getD] at hj
      exact hj
  exact ⟨⟨key _ hcells.1.1, key _ hcells.1.2⟩, key _ hcells.2⟩

/-- A legal click really flips to the else-branch of `handleClick`. -/
theorem handleClick_step (s : GameState) (i : Int)
    (hA : isGameOver s.board = false) (hB : jsGet s.board i = some none) :
    handleClick s i =
      { board := s.board.set i.toNat (some (if s.xIsNext then Player.X else Player.O)),
        xIsNext := !s.xIsNext, hasStarted := true } := by
  unfold handleClick
  rw [if_neg (by rw [hA, hB]; simp)]

/-- The detector's result when some triple matches first. -/
theorem calculateWinner_of_find?_some (b : List Cell) (x y z : Nat)
    (hf : linesList.find? (tripleSameNonEmpty b) = some (x, y, z)) :
    calculateWinner b = { winner := b.getD x none, line := some [x, y, z] } := by
  unfold calculateWinner
  rw [findWin_eq_find?, hf]

/-- The detector's result when no triple matches. -/
theorem calculateWinner_of_find?_none (b : List Cell)
    (hf : linesList.find? (tripleSameNonEmpty b) = none) :
    calculateWinner b = { winner := none, line := none } := by
  unfold calculateWinner
  rw [findWin_eq_find?, hf]

/-- The spec-modelled evaluator when some triple matches first. -/
theorem specEvaluate_of_find?_some (b : List Cell) (x y z : Nat)
    (hf : linesList.find? (tripleSameNonEmpty b) = some (x, y, z)) :
    specEvaluate b =
      match b.getD x none with
      | some p => Verdict.Win p [x, y, z]
      | none => Verdict.InProgress := by
  unfold specEvaluate
  rw [hf]

/-- C1: on every board of 9 cells, the Win Evaluator checks the 8 fixed triples
in the source order and returns `Win(value, triple)` for the first triple whose
three cells hold the same non-`Empty` value; with no match it returns `Draw`
when every cell is non-`Empty` and `InProgress` otherwise. -/
theorem evaluate_eq_specEvaluate (b : List Cell) (_h : b.length = 9) :
    evaluate b = specEvaluate b := by
  cases hf : linesList.find? (tripleSameNonEmpty b) with
  | none =>
    unfold evaluate
    rw [calculateWinner_of_find?_none b hf]
    unfold specEvaluate
    rw [hf]
    rfl
  | some t =>
    obtain ⟨x, y, z⟩ := t
    have hT := List.find?_some hf
    rw [specEvaluate_of_find?_some b x y z hf]
    unfold evaluate
    rw [calculateWinner_of_find?_some b x y z hf]
    cases hx : b.getD x none with
    | none =>
      exfalso
      simp only [tripleSameNonEmpty] at hT
      rw [hx] at hT
      exact Bool.false_ne_true hT
    | some p => rfl

/-- Witness for C1 at a concrete 9-cell board. -/
theorem evaluate_eq_specEvaluate_witness :
    demoBoard.length = 9 ∧ evaluate demoBoard = specEvaluate demoBoard :=
  ⟨by decide, evaluate_eq_specEvaluate demoBoard (by decide)⟩

/-- C2: a legal click on an in-progress 9-cell board writes the current mark at
the clicked cell and nowhere else, flips the turn, sets `hasStarted`, and the
new status is the evaluator's verdict on the updated board. -/
theorem handleClick_applies_move (s : GameState) (idx : Int)
    (hlen : s.board.length = 9)
    (hst : sessionStatus s = SessionStatus.InProgress)
    (h0 : 0 ≤ idx) (h8 : idx ≤ 8)
    (hcell : s.board.getD idx.toNat none = none) :
    (handleClick s idx).board =
      s.board.set idx.toNat (some (if s.xIsNext then Player.X else Player.O)) ∧
    (handleClick s idx).board.getD idx.toNat none =
      some (if s.xIsNext then Player.X else Player.O) ∧
    (∀ j : Nat, j ≠ idx.toNat →
      (handleClick s idx).board.getD j none = s.board.getD j none) ∧
    (handleClick s idx).xIsNext = !s.xIsNext ∧
    (handleClick s idx).hasStarted = true ∧
    sessionStatus (handleClick s idx) =
      verdictToStatus (evaluate (handleClick s idx).board) := by
  have hlt : idx.toNat < s.board.length := by omega
  have hjs : jsGet s.board idx = some none := by
    rw [jsGet_lt s.board idx h0 hlt, hcell]
  have hgo : isGameOver s.board = false := isGameOver_eq_false_of_inProgress s hst
  have hstep := handleClick_step s idx hgo hjs
  refine ⟨by rw [hstep], ?_, ?_, by rw [hstep], by rw [hstep],
    sessionStatus_eq_verdict _⟩
  · rw [hstep]
    dsimp only
    rw [List.getD_eq_getElem?_getD, List.getElem?_set_self hlt]
    rfl
  · intro j hj
    rw [hstep]
    dsimp only
    rw [List.getD_eq_getElem?_getD, List.getElem?_set_ne (Ne.symm hj),
      ← List.getD_eq_getElem?_getD]

/-- Witness for C2: the first click on the empty board. -/
theorem handleClick_applies_move_witness :
    initialState.board.length = 9 ∧
    sessionStatus initialState = SessionStatus.InProgress ∧
    initialState.board.getD (0 : Int).toNat none = none ∧
    (handleClick initialState 0).board =
      initialState.board.set (0 : Int).toNat
        (some (if initialState.xIsNext then Player.X else Player.O)) ∧
    (handleClick initialState 0).board.getD (0 : Int).toNat none =
      some (if initialState.xIsNext then Player.X else Player.O) ∧
    (handleClick initialState 0).board.getD 5 none = initialState.board.getD 5 none ∧
    (handleClick initialState 0).xIsNext = !initialState.xIsNext ∧
    (handleClick initialState 0).hasStarted = true ∧
    sessionStatus (handleClick initialState 0) =
      verdictToStatus (evaluate (handleClick initialState 0).board) :=
  ⟨by decide, by decide, by decide,
    (handleClick_applies_move initialState 0 (by decide) (by decide) (by decide)
      (by decide) (by decide)).1,
    (handleClick_applies_move initialState 0 (by decide) (by decide) (by decide)
      (by decide) (by decide)).2.1,
    (handleClick_applies_move initialState 0 (by decide) (by decide) (by decide)
      (by decide) (by decide)).2.2.1 5 (by decide),
    (handleClick_applies_move initialState 0 (by decide) (by decide) (by decide)
      (by decide) (by decide)).2.2.2.1,
    (handleClick_applies_move initialState 0 (by decide) (by decide) (by decide)
      (by decide) (by decide)).2.2.2.2.1,
    (handleClick_applies_move initialState 0 (by decide) (by decide) (by decide)
      (by decide) (by decide)).2.2.2.2.2⟩

/-- C3: an illegal click (terminal state, out-of-range index, or occupied cell)
changes nothing at all. -/
theorem handleClick_rejects_illegal (s : GameState) (idx : Int)
    (hlen : s.board.length = 9)
    (h : sessionStatus s ≠ SessionStatus.InProgress ∨ idx < 0 ∨ 8 < idx ∨
      s.board.getD idx.toNat none ≠ none) :
    handleClick s idx = s ∧
    (handleClick s idx).board = s.board ∧
    (handleClick s idx).xIsNext = s.xIsNext ∧
    (handleClick s idx).hasStarted = s.hasStarted ∧
    sessionStatus (handleClick s idx) = sessionStatus s := by
  have key : handleClick s idx = s := by
    rcases h with h | h | h | h
    · exact handleClick_of_gameOver s idx (isGameOver_eq_true_of_terminal s h)
    · unfold handleClick
      rw [if_pos (Or.inr (by rw [jsGet_neg s.board idx h]; simp))]
    · unfold handleClick
      rw [if_pos (Or.inr (by rw [jsGet_ge s.board idx (by omega)]; simp))]
    · by_cases hneg : idx < 0
      · unfold handleClick
        rw [if_pos (Or.inr (by rw [jsGet_neg s.board idx hneg]; simp))]
      · by_cases hlt : idx.toNat < s.board.length
        · unfold handleClick
          rw [if_pos (Or.inr (by rw [jsGet_lt s.board idx (by omega) hlt]; simpa using h))]
        · unfold handleClick
          rw [if_pos (Or.inr (by rw [jsGet_ge s.board idx (by omega)]; simp))]
  exact ⟨key, by rw [key], by rw [key], by rw [key], by rw [key]⟩

/-- Witness for C3: a click at index `-1` on the initial board is a no-op. -/
theorem handleClick_rejects_illegal_witness :
    initialState.board.length = 9 ∧
    (handleClick initialState (-1) = initialState ∧
     (handleClick initialState (-1)).board = initialState.board ∧
     (handleClick initialState (-1)).xIsNext = initialState.xIsNext ∧
     (handleClick initialState (-1)).hasStarted = initialState.hasStarted ∧
     sessionStatus (handleClick initialState (-1)) = sessionStatus initialState) :=
  ⟨by decide, handleClick_rejects_illegal initialState (-1) (by decide)
    (Or.inr (Or.inl (by decide)))⟩

/-- C4: `resetGame` yields exactly the initial state from any state: 9 empty
cells, `X` (MarkA) to move, not started, status `InProgress`. -/
theorem resetGame_yields_initial (s : GameState) :
    resetGame s = initialState ∧
    (resetGame s).board = List.replicate 9 none ∧
    (resetGame s).board.length = 9 ∧
    (resetGame s).xIsNext = true ∧
    (resetGame s).hasStarted = false ∧
    sessionStatus (resetGame s) = SessionStatus.InProgress :=
  ⟨rfl, rfl, rfl, rfl, rfl, rfl⟩

/-- C5: once the status is terminal, any further sequence of clicks leaves the
state (hence every cell and the status) literally unchanged. -/
theorem terminal_is_frozen (s : GameState) (moves : List Int)
    (h : sessionStatus s ≠ SessionStatus.InProgress) :
    applyMoves s moves = s ∧
    (applyMoves s moves).board = s.board ∧
    sessionStatus (applyMoves s moves) = sessionStatus s := by
  have hg := isGameOver_eq_true_of_terminal s h
  have key : applyMoves s moves = s := by
    induction moves with
    | nil => rfl
    | cons m ms ih =>
      unfold applyMoves at ih ⊢
      rw [List.foldl_cons, handleClick_of_gameOver s m hg]
      exact ih
  exact ⟨key, by rw [key], by rw [key]⟩

/-- Witness for C5: further clicks on the won state after `0, 3, 1, 4, 2`. -/
theorem terminal_is_frozen_witness :
    sessionStatus wonState ≠ SessionStatus.InProgress ∧
    (applyMoves wonState [5, 6, -1] = wonState ∧
     (applyMoves wonState [5, 6, -1]).board = wonState.board ∧
     sessionStatus (applyMoves wonState [5, 6, -1]) = sessionStatus wonState) :=
  ⟨by decide, terminal_is_frozen wonState [5, 6, -1] (by decide)⟩

/-- C6: the click sequence `0, 3, 1, 4, 2` places `X, O, X, O, X` and wins the
top row for `X`: verdict `Win(X, [0,1,2])` and terminal `Won` status. -/
theorem winSequence_top_row :
    (applyMoves initialState [0, 3, 1, 4, 2]).board =
      [some Player.X, some Player.X, some Player.X,
       some Player.O, some Player.O, none, none, none, none] ∧
    evaluate (applyMoves initialState [0, 3, 1, 4, 2]).board =
      Verdict.Win Player.X [0, 1, 2] ∧
    sessionStatus (applyMoves initialState [0, 3, 1, 4, 2]) =
      SessionStatus.Won Player.X [0, 1, 2] ∧
    isGameOver (applyMoves initialState [0, 3, 1, 4, 2]).board = true := by
  decide

/-- Counterexample to C7: the click sequence `0, 1, 2, 4, 3, 5, 6, 8, 7` does
NOT end in a draw — `X` takes cells 0, 2, 3, 6 and completes the left column
`[0,3,6]` on the seventh click, so the last two clicks are rejected, the board
never fills, and the final status is `Won X [0,3,6]`, not `Drawn`. -/
theorem drawSequence_counterexample :
    sessionStatus (applyMoves initialState [0, 1, 2, 4, 3, 5, 6, 8, 7]) =
      SessionStatus.Won Player.X [0, 3, 6] ∧
    isBoardFull (applyMoves initialState [0, 1, 2, 4, 3, 5, 6, 8, 7]).board = false ∧
    (applyMoves initialState [0, 1, 2, 4, 3, 5, 6, 8, 7]).board =
      [some Player.X, some Player.O, some Player.X,
       some Player.X, some Player.O, some Player.O,
       some Player.X, none, none] ∧
    ¬ sessionStatus (applyMoves initialState [0, 1, 2, 4, 3, 5, 6, 8, 7]) =
      SessionStatus.Drawn := by
  decide

/-- C7 (amended): the click sequence `0, 4, 1, 2, 6, 3, 5, 7, 8` fills all 9
cells, no prefix of it ever produces a winner, and the final status is
`Drawn`. -/
theorem drawSequence_fills_board :
    ((List.range 10).all fun k =>
      (calculateWinner (applyMoves initialState
        (([0, 4, 1, 2, 6, 3, 5, 7, 8] : List Int).take k)).board).winner == none) = true ∧
    isBoardFull (applyMoves initialState [0, 4, 1, 2, 6, 3, 5, 7, 8]).board = true ∧
    sessionStatus (applyMoves initialState [0, 4, 1, 2, 6, 3, 5, 7, 8]) =
      SessionStatus.Drawn := by
  decide

/-- C8: the Win Evaluator is deterministic — equal boards give equal results,
and re-evaluating the same board gives the same result (purity and
non-mutation are intrinsic: it is a function of its input board). -/
theorem calculateWinner_deterministic (b1 b2 : List Cell) (h : b1 = b2) :
    calculateWinner b1 = calculateWinner b2 ∧
    evaluate b1 = evaluate b2 ∧
    calculateWinner b1 = calculateWinner b1 := by
  subst h
  exact ⟨rfl, rfl, rfl⟩

/-- Witness for C8 at a concrete board. -/
theorem calculateWinner_deterministic_witness :
    demoBoard = demoBoard ∧
    (calculateWinner demoBoard = calculateWinner demoBoard ∧
     evaluate demoBoard = evaluate demoBoard ∧
     calculateWinner demoBoard = calculateWinner demoBoard) :=
  ⟨rfl, calculateWinner_deterministic demoBoard demoBoard rfl⟩

/-- C9: on every 9-cell board, `winner` and `line` are null together or
non-null together, and a non-null line is one of the 8 fixed triples, all of
whose cells hold the winner's mark. -/
theorem winner_iff_line (b : List Cell) (_h : b.length = 9) :
    ((calculateWinner b).winner = none ↔ (calculateWinner b).line = none) ∧
    ∀ p l, (calculateWinner b).winner = some p → (calculateWinner b).line = some l →
      l ∈ linesList.map (fun t => [t.1, t.2.1, t.2.2]) ∧
      ∀ i ∈ l, b.getD i none = some p := by
  rcases findWin_shape b linesList with hs | ⟨p, x, y, z, hm, he, h1, h2, h3⟩
  · unfold calculateWinner
    rw [hs]
    constructor
    · simp
    · intro q l hw
      simp at hw
  · unfold calculateWinner
    rw [he]
    constructor
    · simp
    · intro q l hw hl
      simp only at hw hl
      injection hw with hw
      injection hl with hl
      subst hw
      subst hl
      constructor
      · exact List.mem_map.mpr ⟨(x, y, z), hm, rfl⟩
      · intro i hi
        simp at hi
        rcases hi with rfl | rfl | rfl
        · exact h1
        · exact h2
        · exact h3

/-- Witness for C9 at a concrete 9-cell board won by `X` on the top row. -/
theorem winner_iff_line_witness :
    demoBoard.length = 9 ∧
    ((calculateWinner demoBoard).winner = none ↔ (calculateWinner demoBoard).line = none) ∧
    [0, 1, 2] ∈ linesList.map (fun t => [t.1, t.2.1, t.2.2]) ∧
    demoBoard.getD 0 none = some Player.X :=
  ⟨by decide, (winner_iff_line demoBoard (by decide)).1,
    ((winner_iff_line demoBoard (by decide)).2 Player.X [0, 1, 2]
      (by decide) (by decide)).1,
    ((winner_iff_line demoBoard (by decide)).2 Player.X [0, 1, 2]
      (by decide) (by decide)).2 0 (by decide)⟩

/-- C10: in every state reachable by clicks and resets, the mark counts
alternate with the turn — equal when `X` (MarkA) is to move, `X` one ahead
when `O` (MarkB) is to move — and the board never holds completed winning
lines for both marks at once. -/
theorem reachable_alternation (s : GameState) (hr : Reachable s) :
    (s.xIsNext = true → countMark s.board Player.X = countMark s.board Player.O) ∧
    (s.xIsNext = false →
      countMark s.board Player.X = countMark s.board Player.O + 1) ∧
    ¬(hasLineFor s.board Player.X = true ∧ hasLineFor s.board Player.O = true) := by
  induction hr with
  | init => decide
  | move s' i hr' ih =>
    by_cases hcond : isGameOver s'.board = true ∨ jsGet s'.board i ≠ some none
    · have hid : handleClick s' i = s' := by
        unfold handleClick
        rw [if_pos hcond]
      rw [hid]
      exact ih
    · have hA : isGameOver s'.board = false := by
        by_contra hh
        rw [Bool.not_eq_false] at hh
        exact hcond (Or.inl hh)
      have hB : jsGet s'.board i = some none := by
        by_contra hh
        exact hcond (Or.inr hh)
      have hges : s'.board[i.toNat]? = some none := by
        by_cases hneg : i < 0
        · rw [jsGet_neg s'.board i hneg] at hB
          exact absurd hB (by simp)
        · unfold jsGet at hB
          rw [if_neg hneg] at hB
          exact hB
      have hlt : i.toNat < s'.board.length := by
        by_contra hge
        rw [List.getElem?_eq_none (by omega)] at hges
        exact absurd hges (by simp)
      have hwnone : (calculateWinner s'.board).winner = none := by
        unfold isGameOver at hA
        rw [Bool.or_eq_false_iff] at hA
        have h1 := hA.1
        rwa [bne_eq_false_iff_eq] at h1
      have hnlX := hasLineFor_eq_false_of_winner_none s'.board hwnone Player.X
      have hnlO := hasLineFor_eq_false_of_winner_none s'.board hwnone Player.O
      have hstep := handleClick_step s' i hA hB
      obtain ⟨hcnt1, hcnt2⟩ :=
        count_set_none s'.board i.toNat hges (if s'.xIsNext then Player.X else Player.O)
      cases hxn : s'.xIsNext with
      | true =>
        have hmark : (if s'.xIsNext then Player.X else Player.O) = Player.X := by
          rw [hxn]
          rfl
        rw [hmark] at hstep hcnt1 hcnt2
        rw [hstep]
        dsimp only
        rw [hxn]
        refine ⟨?_, ?_, ?_⟩
        · intro hx
          simp at hx
        · intro _
          have ihx := ih.1 hxn
          unfold countMark at ihx ⊢
          rw [hcnt1, hcnt2 Player.O (by decide), ihx]
        · rintro ⟨hX, hO⟩
          have hold := hasLineFor_set_other s'.board i.toNat hlt
            Player.X Player.O (by decide) hO
          rw [hnlO] at hold
          exact Bool.false_ne_true hold
      | false =>
        have hmark : (if s'.xIsNext then Player.X else Player.O) = Player.O := by
          rw [hxn]
          rfl
        rw [hmark] at hstep hcnt1 hcnt2
        rw [hstep]
        dsimp only
        rw [hxn]
        refine ⟨?_, ?_, ?_⟩
        · intro _
          have ihx := ih.2.1 hxn
          unfold countMark at ihx ⊢
          rw [hcnt1, hcnt2 Player.X (by decide), ihx]
        · intro hx
          simp at hx
        · rintro ⟨hX, hO⟩
          have hold := hasLineFor_set_other s'.board i.toNat hlt
            Player.O Player.X (by decide) hX
          rw [hnlX] at hold
          exact Bool.false_ne_true hold
  | reset s' hr' ih =>
    rw [show resetGame s' = initialState from rfl]
    decide

/-- Witness for C10: the state after the first click (one `X`, `O` to move). -/
theorem reachable_alternation_witness :
    countMark (handleClick initialState 0).board Player.X =
      countMark (handleClick initialState 0).board Player.O + 1 ∧
    ¬(hasLineFor (handleClick initialState 0).board Player.X = true ∧
      hasLineFor (handleClick initialState 0).board Player.O = true) :=
  ⟨(reachable_alternation (handleClick initialState 0)
      (Reachable.move initialState 0 Reachable.init)).2.1 (by decide),
   (reachable_alternation (handleClick initialState 0)
      (Reachable.move initialState 0 Reachable.init)).2.2⟩
